import Mathlib

/-!
Shallow embedding of `migrate-meraki2nile.py`: a script that pages through a
cloud API's client list, asks the operator for a segment name per VLAN, and
writes a fixed-column migration CSV.  Definitions below mirror the Python
source function by function; theorems settle the specification's claims.
-/

namespace MerakiMigration

/-- A client record as returned by the upstream API: `mac` is always present,
`vlan` and `switchport` may be absent (`None` in Python). -/
structure Client where
  mac : String
  vlan : Option Int
  switchport : Option String
deriving DecidableEq

/-- Python truthiness test `if c.get('switchport')`: the client is wired when
`switchport` is present and non-empty (lines 81-83 and 139 of the source). -/
def isWired (c : Client) : Bool :=
  match c.switchport with
  | some s => s != ""
  | none => false

/-- The dedup key `(mac, vlan)` built at line 87 of the source. -/
def dedupKey (c : Client) : String × Option Int :=
  (c.mac, c.vlan)

/-- The fixed 11-column header row written at lines 66-78 of the source. -/
def header : List String :=
  [ "MAC Address (Required)",
    "Segment (Required for allow state)",
    "Lock to Port (Optional)",
    "Site (Optional)",
    "Building (Optional)",
    "Floor (Optional)",
    "Allow or Deny (Required)",
    "Description (Optional)",
    "Static IP (Optional)",
    "IP Address (Optional)",
    "Passive IP (Optional)" ]

/-- Python `vlan_to_segment.get(vlan, '')` at line 92: the mapping (a Python dict
keyed by the integer VLAN IDs collected in `main`) is modelled as an
association list; a missing key — including a client with no VLAN at all —
defaults to the empty string. -/
def lookupSegment (m : List (Int × String)) (v : Option Int) : String :=
  match v with
  | none => ""
  | some i => (m.lookup i).getD ""

/-- The data row written for one qualifying client (lines 93-105). -/
def migration_row (m : List (Int × String)) (c : Client) : List String :=
  [ c.mac,
    lookupSegment m c.vlan,
    "",
    "",
    "",
    "",
    "Allow",
    "Imported from migration CSV",
    "No",
    "",
    "No" ]

/-- The clients for which the loop of `write_migration_csv` (lines 80-105)
emits a row, given the `seen` set accumulated so far: wireless clients are
skipped, and so is any client whose `(mac, vlan)` pair is already in `seen`. -/
def emittedAux : List Client → List (String × Option Int) → List Client
  | [], _ => []
  | c :: cs, seen =>
    if isWired c then
      if dedupKey c ∈ seen then emittedAux cs seen
      else c :: emittedAux cs (dedupKey c :: seen)
    else emittedAux cs seen

/-- The clients whose rows appear in the CSV, in emission order. -/
def emittedClients (clients : List Client) : List Client :=
  emittedAux clients []

/-- The rows of the loop body, mirroring `emittedAux`. -/
def writeRowsAux (m : List (Int × String)) : List Client → List (String × Option Int) → List (List String)
  | [], _ => []
  | c :: cs, seen =>
    if isWired c then
      if dedupKey c ∈ seen then writeRowsAux m cs seen
      else migration_row m c :: writeRowsAux m cs (dedupKey c :: seen)
    else writeRowsAux m cs seen

/-- Source `write_migration_csv(clients, vlan_to_segment, output_file)` (lines
55-105), modelled as the list of rows written to the file: the header row
followed by one data row per qualifying, not-yet-seen client. -/
def write_migration_csv (clients : List Client) (m : List (Int × String)) : List (List String) :=
  header :: writeRowsAux m clients []

/-- Whether Python's `csv.writer` (default QUOTE_MINIMAL dialect) must quote a
field: it contains the delimiter, the quote char, or a line break. -/
def needsQuoting (s : String) : Bool :=
  s.data.any (fun ch => ch == ',' || ch == Char.ofNat 34 || ch == Char.ofNat 10 || ch == Char.ofNat 13)

/-- One CSV field as `csv.writer` serialises it: quoted with internal quote
chars doubled when needed, verbatim otherwise. -/
def csvField (s : String) : String :=
  if needsQuoting s then
    let q := (Char.ofNat 34).toString
    q ++ (s.replace q (q ++ q)) ++ q
  else s

/-- One line of the output file (line terminator excluded): the fields joined
by the default delimiter `,`. -/
def renderRow (row : List String) : String :=
  String.intercalate "," (row.map csvField)

/-- Python `batch[-1]['mac']` at line 37: the MAC of the last record of a page,
used as the pagination cursor for the next request. -/
def lastMac (batch : List Client) : Option String :=
  batch.getLast?.map Client.mac

/-- The loop of `get_all_clients` (lines 24-40).  The upstream API is
modelled as `pages`, giving the batch returned by the `i`-th request; the
`startingAfter` cursor each request carries is recorded in `reqs` (the first
request carries none).  The `while True` loop is given `fuel`; `none` means
the fuel ran out before a short or empty page was seen. -/
def getAllAux (pages : Nat → List Client) (per_page : Nat) :
    Nat → Nat → Option String → List Client → List (Option String) →
    Option (List Client × List (Option String))
  | 0, _, _, _, _ => none
  | fuel + 1, i, cursor, acc, reqs =>
    let batch := pages i
    let reqs := reqs ++ [cursor]
    if batch.isEmpty then some (acc, reqs)
    else
      let acc := acc ++ batch
      if batch.length < per_page then some (acc, reqs)
      else getAllAux pages per_page fuel (i + 1) (lastMac batch) acc reqs

/-- Source `get_all_clients(api_key, network_id, timespan, per_page)` (lines 8-40):
returns the accumulated clients together with the cursor of every request
issued, or `none` if `fuel` requests did not reach a short or empty page. -/
def get_all_clients (pages : Nat → List Client) (per_page fuel : Nat) :
    Option (List Client × List (Option String)) :=
  getAllAux pages per_page fuel 0 none [] []

/-- Python `sorted(vlan_set)` at line 49: the VLAN IDs prompted for, in ascending
order.  A Python set of ints is a `Finset Int`. -/
def promptedVlans (vlan_set : Finset Int) : List Int :=
  vlan_set.sort (· ≤ ·)

/-- Source `prompt_for_segments(vlan_set)` (lines 43-52): one `input()` call per
VLAN in sorted order, the answer stripped of surrounding whitespace; the
resulting dict is modelled as the association list built in prompt order.
The interactive prompt is abstracted as `ask`. -/
def prompt_for_segments (ask : Int → String) (vlan_set : Finset Int) : List (Int × String) :=
  (promptedVlans vlan_set).map (fun v => (v, (ask v).trim))

/-- Python `[c for c in all_clients if c.get('switchport')]` at line 139. -/
def wiredClients (clients : List Client) : List Client :=
  clients.filter isWired

/-- Python `set(c.get('vlan') for c in wired_clients if c.get('vlan') is not None)`
at line 140: the distinct VLAN IDs among wired clients, absent VLANs
excluded. -/
def uniqueVlans (clients : List Client) : Finset Int :=
  ((wiredClients clients).filterMap Client.vlan).toFinset

/-- Source `main` (lines 108-147), from the point where the organization's network
list has been fetched: if the requested network is not among them the
program exits via `sys.exit(message)` (non-zero status, modelled as
`Except.error`, and nothing is written); otherwise it retrieves the
clients, prompts for segments and returns the rows of the CSV file it
writes. -/
def main_run (orgNetworkIds : List String) (network_id org_id : String)
    (pages : Nat → List Client) (ask : Int → String) (fuel : Nat) :
    Except String (List (List String)) :=
  if network_id ∈ orgNetworkIds then
    match get_all_clients pages 1000 fuel with
    | none => Except.error "model: retrieval fuel exhausted"
    | some (all_clients, _) =>
      let wired := wiredClients all_clients
      let vlan_to_segment := prompt_for_segments ask (uniqueVlans all_clients)
      Except.ok (write_migration_csv wired vlan_to_segment)
  else
    Except.error ("Error: Network " ++ network_id ++ " not found in organization " ++ org_id)

/-! ## Helper lemmas about the CSV writer loop -/

theorem writeRowsAux_eq_map (m : List (Int × String)) :
    ∀ (cs : List Client) (seen : List (String × Option Int)),
      writeRowsAux m cs seen = (emittedAux cs seen).map (migration_row m) := by
  intro cs
  induction cs with
  | nil => intro seen; rfl
  | cons c cs ih =>
    intro seen
    simp only [writeRowsAux, emittedAux]
    by_cases hw : isWired c = true
    · by_cases hs : dedupKey c ∈ seen
      · simp [hw, hs, ih seen]
      · simp [hw, hs, ih (dedupKey c :: seen)]
    · simp [hw, ih seen]

theorem emittedAux_key_not_mem :
    ∀ (cs : List Client) (seen : List (String × Option Int)) (e : Client),
      e ∈ emittedAux cs seen → dedupKey e ∉ seen := by
  intro cs
  induction cs with
  | nil => intro seen e h; simp [emittedAux] at h
  | cons c cs ih =>
    intro seen e h
    simp only [emittedAux] at h
    by_cases hw : isWired c = true
    · by_cases hs : dedupKey c ∈ seen
      · simp [hw, hs] at h
        exact ih seen e h
      · simp [hw, hs] at h
        rcases h with rfl | h
        · exact hs
        · intro hmem
          exact ih _ e h (List.mem_cons_of_mem _ hmem)
    · simp [hw] at h
      exact ih seen e h

theorem emittedAux_keys_nodup :
    ∀ (cs : List Client) (seen : List (String × Option Int)),
      ((emittedAux cs seen).map dedupKey).Nodup := by
  intro cs
  induction cs with
  | nil => intro seen; simp [emittedAux]
  | cons c cs ih =>
    intro seen
    simp only [emittedAux]
    by_cases hw : isWired c = true
    · by_cases hs : dedupKey c ∈ seen
      · simp [hw, hs, ih seen]
      · simp only [hw, hs, if_true, if_false, List.map_cons, List.nodup_cons]
        refine ⟨?_, ih (dedupKey c :: seen)⟩
        intro hmem
        rcases List.mem_map.mp hmem with ⟨e, he, hkey⟩
        exact emittedAux_key_not_mem cs (dedupKey c :: seen) e he
          (hkey ▸ List.mem_cons_self _ _)
    · simp [hw, ih seen]

theorem emittedAux_sublist :
    ∀ (cs : List Client) (seen : List (String × Option Int)),
      List.Sublist (emittedAux cs seen) (cs.filter isWired) := by
  intro cs
  induction cs with
  | nil => intro seen; simp [emittedAux]
  | cons c cs ih =>
    intro seen
    simp only [emittedAux, List.filter_cons]
    by_cases hw : isWired c = true
    · by_cases hs : dedupKey c ∈ seen
      · simp only [hw, hs, if_true]
        exact (ih seen).cons c
      · simp only [hw, hs, if_true, if_false]
        exact (ih (dedupKey c :: seen)).cons₂ c
    · simp only [hw, if_false]
      simp only [Bool.not_eq_true] at hw
      simp only [hw, Bool.false_eq_true, if_false]
      exact ih seen

theorem emittedAux_mem_wired
    (cs : List Client) (seen : List (String × Option Int)) (e : Client)
    (h : e ∈ emittedAux cs seen) : isWired e = true :=
  (List.mem_filter.mp ((emittedAux_sublist cs seen).subset h)).2

theorem emittedAux_complete :
    ∀ (cs : List Client) (seen : List (String × Option Int)) (c : Client),
      c ∈ cs → isWired c = true →
      dedupKey c ∈ seen ∨ dedupKey c ∈ (emittedAux cs seen).map dedupKey := by
  intro cs
  induction cs with
  | nil => intro seen c h; simp at h
  | cons c' cs ih =>
    intro seen c hmem hcw
    simp only [emittedAux]
    rcases List.mem_cons.mp hmem with rfl | hmem
    · simp only [hcw, if_true]
      by_cases hs : dedupKey c ∈ seen
      · exact Or.inl hs
      · simp only [hs, if_false, List.map_cons]
        exact Or.inr (List.mem_cons_self _ _)
    · by_cases hw : isWired c' = true
      · by_cases hs : dedupKey c' ∈ seen
        · simp only [hw, hs, if_true]
          exact ih seen c hmem hcw
        · simp only [hw, hs, if_true, if_false, List.map_cons]
          rcases ih (dedupKey c' :: seen) c hmem hcw with hin | hin
          · rcases List.mem_cons.mp hin with heq | hin
            · exact Or.inr (heq ▸ List.mem_cons_self _ _)
            · exact Or.inl hin
          · exact Or.inr (List.mem_cons_of_mem _ hin)
      · simp only [hw, if_false]
        exact ih seen c hmem hcw

theorem emittedAux_first :
    ∀ (cs : List Client) (seen : List (String × Option Int)) (e : Client),
      e ∈ emittedAux cs seen →
      (cs.filter isWired).find? (fun c => dedupKey c == dedupKey e) = some e := by
  intro cs
  induction cs with
  | nil => intro seen e h; simp [emittedAux] at h
  | cons c cs ih =>
    intro seen e h
    simp only [emittedAux] at h
    simp only [List.filter_cons]
    by_cases hw : isWired c = true
    · by_cases hs : dedupKey c ∈ seen
      · simp only [hw, hs, if_true] at h ⊢
        have hne : (dedupKey c == dedupKey e) = false := by
          have := emittedAux_key_not_mem cs seen e h
          simp only [beq_eq_false_iff_ne, ne_eq]
          intro heq
          exact this (heq ▸ hs)
        rw [List.find?_cons_of_neg _ (by simp [hne]), ih seen e h]
      · simp only [hw, hs, if_true, if_false] at h ⊢
        rcases List.mem_cons.mp h with rfl | h
        · rw [List.find?_cons_of_pos _ (by simp)]
        · have hne : (dedupKey c == dedupKey e) = false := by
            have := emittedAux_key_not_mem cs (dedupKey c :: seen) e h
            simp only [beq_eq_false_iff_ne, ne_eq]
            intro heq
            exact this (heq ▸ List.mem_cons_self _ _)
          rw [List.find?_cons_of_neg _ (by simp [hne]), ih _ e h]
    · rw [if_neg hw] at h
      rw [if_neg hw]
      exact ih seen e h

/-! ## Claims about the CSV writer -/

/-- C1: for every client list and VLAN-to-segment mapping, the CSV contains at
most one data row per distinct (MAC, VLAN) pair; when several qualifying
clients share a pair, the first one in the input list is written, and the data
rows appear in the original retrieval order. -/
theorem claim_c1_dedup (clients : List Client) (m : List (Int × String)) :
    write_migration_csv clients m = header :: (emittedClients clients).map (migration_row m)
    ∧ ((emittedClients clients).map dedupKey).Nodup
    ∧ List.Sublist (emittedClients clients) (clients.filter isWired)
    ∧ (∀ c ∈ clients, isWired c = true → dedupKey c ∈ (emittedClients clients).map dedupKey)
    ∧ (∀ e ∈ emittedClients clients,
        (clients.filter isWired).find? (fun c => dedupKey c == dedupKey e) = some e) := by
  refine ⟨?_, emittedAux_keys_nodup clients [], emittedAux_sublist clients [], ?_, ?_⟩
  · simp [write_migration_csv, emittedClients, writeRowsAux_eq_map]
  · intro c hc hw
    rcases emittedAux_complete clients [] c hc hw with h | h
    · simp at h
    · exact h
  · intro e he
    exact emittedAux_first clients [] e he

theorem claim_c1_dedup_witness :
    ((emittedClients [⟨"X", some 5, some "1"⟩, ⟨"X", some 5, some "2"⟩]).map dedupKey).Nodup
    ∧ (([⟨"X", some 5, some "1"⟩, ⟨"X", some 5, some "2"⟩] : List Client).filter isWired).find?
        (fun c => dedupKey c == dedupKey ⟨"X", some 5, some "1"⟩) = some ⟨"X", some 5, some "1"⟩ :=
  ⟨(claim_c1_dedup [⟨"X", some 5, some "1"⟩, ⟨"X", some 5, some "2"⟩] []).2.1,
   (claim_c1_dedup [⟨"X", some 5, some "1"⟩, ⟨"X", some 5, some "2"⟩] []).2.2.2.2
     ⟨"X", some 5, some "1"⟩ (by decide)⟩

/-- C2: a data row is emitted for a client only if it has a non-empty
`switchport`; a client whose `switchport` is absent or empty produces no
output row. -/
theorem claim_c2_wired_filter (clients : List Client) (m : List (Int × String)) :
    write_migration_csv clients m = header :: (emittedClients clients).map (migration_row m)
    ∧ (∀ e ∈ emittedClients clients, ∃ s, e.switchport = some s ∧ s ≠ "")
    ∧ (∀ c : Client, c.switchport = none ∨ c.switchport = some "" →
        c ∉ emittedClients clients) := by
  refine ⟨by simp [write_migration_csv, emittedClients, writeRowsAux_eq_map], ?_, ?_⟩
  · intro e he
    have hw := emittedAux_mem_wired clients [] e he
    cases hsp : e.switchport with
    | none => simp [isWired, hsp] at hw
    | some s =>
      refine ⟨s, rfl, ?_⟩
      simp only [isWired, hsp, bne_iff_ne, ne_eq] at hw
      exact hw
  · intro c hc hmem
    have hw := emittedAux_mem_wired clients [] c hmem
    rcases hc with h | h <;> simp [isWired, h] at hw

theorem claim_c2_wired_filter_witness :
    (⟨"Y", none, none⟩ : Client) ∉ emittedClients [⟨"Y", none, none⟩] :=
  (claim_c2_wired_filter [⟨"Y", none, none⟩] []).2.2 ⟨"Y", none, none⟩ (Or.inl rfl)

/-- C3: for every qualifying client, the segment field of its row is the
mapping's value for the client's VLAN, defaulting to the empty string when
that VLAN is absent from the mapping — including a client with no VLAN at
all, for which a row is still written with an empty segment field. -/
theorem claim_c3_segment_lookup (clients : List Client) (m : List (Int × String)) (c : Client) :
    (c ∈ emittedClients clients →
      (migration_row m c).get? 1 = some ((c.vlan.bind (fun v => m.lookup v)).getD ""))
    ∧ (isWired c = true → c.vlan = none →
        write_migration_csv [c] m = [header, migration_row m c]
        ∧ (migration_row m c).get? 1 = some "") := by
  constructor
  · intro _
    show some (lookupSegment m c.vlan) = _
    cases hv : c.vlan with
    | none => simp [lookupSegment]
    | some v => simp [lookupSegment]
  · intro hw hv
    refine ⟨?_, ?_⟩
    · simp [write_migration_csv, writeRowsAux, hw]
    · show some (lookupSegment m c.vlan) = some ""
      rw [hv]
      rfl

theorem claim_c3_segment_lookup_witness :
    write_migration_csv [⟨"Y", none, some "3"⟩] []
      = [header, migration_row [] ⟨"Y", none, some "3"⟩]
    ∧ (migration_row [] (⟨"Y", none, some "3"⟩ : Client)).get? 1 = some "" :=
  (claim_c3_segment_lookup [⟨"Y", none, some "3"⟩] [] ⟨"Y", none, some "3"⟩).2 (by decide) rfl

set_option maxRecDepth 4000 in
/-- C4: the output row of a qualifying client has exactly 11 fields with the
fixed constants, and the spec's concrete scenario — wired client
`00:11:22:33:44:55` on VLAN 10 under mapping `10 ↦ Engineering` — serialises
to `00:11:22:33:44:55,Engineering,,,,,Allow,Imported from migration CSV,No,,No`. -/
theorem claim_c4_row_shape :
    (∀ (m : List (Int × String)) (c : Client),
      migration_row m c
        = [c.mac, lookupSegment m c.vlan, "", "", "", "", "Allow",
           "Imported from migration CSV", "No", "", "No"]
      ∧ (migration_row m c).length = 11)
    ∧ write_migration_csv [⟨"00:11:22:33:44:55", some 10, some "1"⟩] [(10, "Engineering")]
      = [header, ["00:11:22:33:44:55", "Engineering", "", "", "", "", "Allow",
          "Imported from migration CSV", "No", "", "No"]]
    ∧ (migration_row [(10, "Engineering")] ⟨"00:11:22:33:44:55", some 10, some "1"⟩).length = 11
    ∧ renderRow (migration_row [(10, "Engineering")] ⟨"00:11:22:33:44:55", some 10, some "1"⟩)
      = "00:11:22:33:44:55,Engineering,,,,,Allow,Imported from migration CSV,No,,No" := by
  refine ⟨fun m c => ⟨rfl, rfl⟩, by decide, by decide, by decide⟩

set_option maxRecDepth 4000 in
/-- C9 counterexample: the first line of the output file is not the header
text claimed by the spec — the claimed text puts a space after each comma,
but the writer joins the fields with bare commas. -/
theorem claim_c9_counterexample :
    ¬ (renderRow header =
      "MAC Address (Required), Segment (Required for allow state), Lock to Port (Optional), Site (Optional), Building (Optional), Floor (Optional), Allow or Deny (Required), Description (Optional), Static IP (Optional), IP Address (Optional), Passive IP (Optional)") := by
  decide

set_option maxRecDepth 4000 in
/-- C9 (amended): the first line of every written file is the 11-column
header joined by bare commas, with no space after the commas. -/
theorem claim_c9_header (clients : List Client) (m : List (Int × String)) :
    (write_migration_csv clients m).head? = some header
    ∧ renderRow header =
      "MAC Address (Required),Segment (Required for allow state),Lock to Port (Optional),Site (Optional),Building (Optional),Floor (Optional),Allow or Deny (Required),Description (Optional),Static IP (Optional),IP Address (Optional),Passive IP (Optional)" :=
  ⟨rfl, by decide⟩

/-! ## Helper lemmas about pagination -/

theorem range_map_succ {α : Type} (f : Nat → α) (i n : Nat) :
    (List.range (n + 1)).map (fun j => f (i + j))
      = f i :: (List.range n).map (fun j => f (i + 1 + j)) := by
  rw [List.range_succ_eq_map]
  simp only [List.map_cons, List.map_map, Function.comp, Nat.add_zero]
  congr 1
  apply List.map_congr_left
  intro j _
  show f (i + (j + 1)) = f (i + 1 + j)
  congr 1
  omega

theorem range_pages_flatten_succ (pages : Nat → List Client) (i n : Nat) :
    ((List.range (n + 1)).map (fun j => pages (i + j))).flatten
      = pages i ++ ((List.range n).map (fun j => pages (i + 1 + j))).flatten := by
  rw [range_map_succ]
  simp

theorem range_lastMac_succ (pages : Nat → List Client) (i n : Nat) :
    (List.range (n + 1)).map (fun j => lastMac (pages (i + j)))
      = lastMac (pages i) :: (List.range n).map (fun j => lastMac (pages (i + 1 + j))) :=
  range_map_succ (fun j => lastMac (pages j)) i n

theorem getAllAux_spec (pages : Nat → List Client) (per_page : Nat) (hp : 0 < per_page) :
    ∀ (k fuel i : Nat) (cursor : Option String) (acc : List Client)
      (reqs : List (Option String)),
      (∀ j, j < k → (pages (i + j)).length = per_page) →
      (pages (i + k)).length < per_page →
      k < fuel →
      getAllAux pages per_page fuel i cursor acc reqs =
        some (acc ++ ((List.range (k + 1)).map (fun j => pages (i + j))).flatten,
              reqs ++ cursor :: (List.range k).map (fun j => lastMac (pages (i + j)))) := by
  intro k
  induction k with
  | zero =>
    intro fuel i cursor acc reqs _ hlast hfuel
    cases fuel with
    | zero => exact absurd hfuel (by omega)
    | succ f =>
      rw [Nat.add_zero] at hlast
      simp only [getAllAux]
      by_cases hemp : (pages i).isEmpty = true
      · have hnil : pages i = [] := by simpa using hemp
        simp [hemp, hnil]
      · simp only [hemp, if_false, if_pos hlast]
        simp [List.range_succ]
  | succ k ih =>
    intro fuel i cursor acc reqs hfull hlast hfuel
    cases fuel with
    | zero => exact absurd hfuel (by omega)
    | succ f =>
      have h0 : (pages i).length = per_page := by
        have := hfull 0 (Nat.succ_pos k)
        simpa using this
      have hne : ¬ ((pages i).isEmpty = true) := by
        simp only [List.isEmpty_iff]
        intro hnil
        rw [hnil] at h0
        simp at h0
        omega
      have hnl : ¬ ((pages i).length < per_page) := by omega
      simp only [getAllAux, hne, if_false, hnl]
      rw [ih f (i + 1) (lastMac (pages i)) (acc ++ pages i) (reqs ++ [cursor])
        (fun j hj => by
          have := hfull (j + 1) (by omega)
          rwa [show i + (j + 1) = i + 1 + j by omega] at this)
        (by rwa [show i + (k + 1) = i + 1 + k by omega] at hlast)
        (by omega)]
      rw [range_pages_flatten_succ pages i (k + 1), range_lastMac_succ pages i k]
      simp [List.append_assoc]

/-! ## Claims about pagination -/

/-- C5: whenever some page is eventually smaller than `per_page` (or empty),
the retriever terminates at that page — exactly one request per fetched page,
no further requests — and returns the concatenation of all fetched pages in
fetch order. -/
theorem claim_c5_pagination_terminates (pages : Nat → List Client) (per_page k fuel : Nat)
    (hp : 0 < per_page)
    (hfull : ∀ j, j < k → (pages j).length = per_page)
    (hlast : (pages k).length < per_page)
    (hfuel : k < fuel) :
    ∃ reqs : List (Option String),
      get_all_clients pages per_page fuel
        = some (((List.range (k + 1)).map pages).flatten, reqs)
      ∧ reqs.length = k + 1 := by
  refine ⟨none :: (List.range k).map (fun j => lastMac (pages j)), ?_, by simp⟩
  have h := getAllAux_spec pages per_page hp k fuel 0 none [] []
    (fun j hj => by simpa using hfull j hj) (by simpa using hlast) hfuel
  rw [get_all_clients, h]
  simp only [Nat.zero_add, List.nil_append]

def pagesW : Nat → List Client := fun i =>
  if i = 0 then [⟨"a", none, none⟩, ⟨"b", none, none⟩]
  else if i = 1 then [⟨"c", none, none⟩]
  else []

theorem claim_c5_witness :
    ∃ reqs : List (Option String),
      get_all_clients pagesW 2 3 = some (((List.range 2).map pagesW).flatten, reqs)
      ∧ reqs.length = 2 :=
  claim_c5_pagination_terminates pagesW 2 1 3 (by decide) (by decide) (by decide) (by decide)

/-- C6: every request after a full page of `per_page` records carries the MAC
of the last record of the most recently fetched page as its `startingAfter`
cursor; the first request carries none. -/
theorem claim_c6_cursor (pages : Nat → List Client) (per_page k fuel : Nat)
    (hp : 0 < per_page)
    (hfull : ∀ j, j < k → (pages j).length = per_page)
    (hlast : (pages k).length < per_page)
    (hfuel : k < fuel) :
    get_all_clients pages per_page fuel
      = some (((List.range (k + 1)).map pages).flatten,
              none :: (List.range k).map (fun j => lastMac (pages j))) := by
  have h := getAllAux_spec pages per_page hp k fuel 0 none [] []
    (fun j hj => by simpa using hfull j hj) (by simpa using hlast) hfuel
  rw [get_all_clients, h]
  simp only [Nat.zero_add, List.nil_append]

def scenarioLast : Client := ⟨"AA:BB:CC:00:00:01", none, some "1"⟩

def scenarioPage0 : List Client :=
  List.replicate 999 ⟨"AA:BB:CC:00:00:00", none, some "1"⟩ ++ [scenarioLast]

def scenarioPage1 : List Client :=
  List.replicate 200 ⟨"BB:00:00:00:00:00", none, some "1"⟩

def scenarioPages : Nat → List Client := fun i =>
  if i = 0 then scenarioPage0 else if i = 1 then scenarioPage1 else []

set_option maxRecDepth 40000 in
theorem claim_c6_cursor_witness :
    get_all_clients scenarioPages 1000 2
      = some (((List.range 2).map scenarioPages).flatten,
              none :: (List.range 1).map (fun j => lastMac (scenarioPages j)))
    ∧ (((List.range 2).map scenarioPages).flatten).length = 1200
    ∧ (List.range 1).map (fun j => lastMac (scenarioPages j)) = [some "AA:BB:CC:00:00:01"] := by
  refine ⟨claim_c6_cursor scenarioPages 1000 1 2 (by decide) ?_ ?_ (by decide), ?_, ?_⟩
  · intro j hj
    have hj0 : j = 0 := by omega
    subst hj0
    simp [scenarioPages, scenarioPage0]
  · simp [scenarioPages, scenarioPage1]
  · have h2 : List.range 2 = [0, 1] := rfl
    rw [h2]
    simp [scenarioPages, scenarioPage0, scenarioPage1]
  · have h1 : List.range 1 = [0] := rfl
    rw [h1]
    simp [scenarioPages, scenarioPage0, lastMac, scenarioLast]

/-! ## Claims about the segment mapper and main -/

/-- C7: exactly one interactive prompt is issued per distinct VLAN, and the
prompts are issued in ascending numeric order of the VLAN IDs. -/
theorem claim_c7_prompt_order (ask : Int → String) (vlan_set : Finset Int) :
    (prompt_for_segments ask vlan_set).map Prod.fst = promptedVlans vlan_set
    ∧ (promptedVlans vlan_set).Sorted (· < ·)
    ∧ (∀ v : Int, v ∈ promptedVlans vlan_set ↔ v ∈ vlan_set)
    ∧ (∀ v : Int, v ∈ vlan_set → (promptedVlans vlan_set).count v = 1) := by
  refine ⟨?_, ?_, ?_, ?_⟩
  · simp only [prompt_for_segments, List.map_map]
    have hfst : (Prod.fst ∘ fun v : Int => (v, (ask v).trim)) = id := funext (fun v => rfl)
    rw [hfst, List.map_id]
  · exact Finset.sort_sorted_lt vlan_set
  · intro v
    exact Finset.mem_sort (· ≤ ·)
  · intro v hv
    exact List.count_eq_one_of_mem (Finset.sort_nodup (· ≤ ·) vlan_set)
      ((Finset.mem_sort (· ≤ ·)).mpr hv)

theorem claim_c7_prompt_order_witness :
    (promptedVlans ({3, 1, 2} : Finset Int)).count 2 = 1 :=
  (claim_c7_prompt_order (fun _ => "") {3, 1, 2}).2.2.2 2 (by decide)

/-- C8: if the requested network id is not among the organization's networks,
the run terminates with the descriptive error message and produces no CSV
rows. -/
theorem claim_c8_validation (orgNetworkIds : List String) (network_id org_id : String)
    (pages : Nat → List Client) (ask : Int → String) (fuel : Nat)
    (h : network_id ∉ orgNetworkIds) :
    main_run orgNetworkIds network_id org_id pages ask fuel
      = Except.error
          ("Error: Network " ++ network_id ++ " not found in organization " ++ org_id) := by
  simp [main_run, h]

theorem claim_c8_validation_witness :
    main_run ["N1", "N2"] "N3" "O1" (fun _ => []) (fun _ => "") 1
      = Except.error ("Error: Network " ++ "N3" ++ " not found in organization " ++ "O1") :=
  claim_c8_validation ["N1", "N2"] "N3" "O1" (fun _ => []) (fun _ => "") 1 (by decide)

/-- C10: the VLAN set handed to the segment mapper contains exactly the VLANs
of wired clients, with absent VLAN values excluded, so a wired client with no
VLAN contributes nothing to the set and never triggers a prompt; the set is a
set of integers, on which the ascending sort is total. -/
theorem claim_c10_vlan_set (clients : List Client) :
    (∀ v : Int, v ∈ uniqueVlans clients ↔ ∃ c ∈ clients, isWired c = true ∧ c.vlan = some v)
    ∧ (∀ c : Client, c.vlan = none →
        uniqueVlans (c :: clients) = uniqueVlans clients
        ∧ promptedVlans (uniqueVlans (c :: clients)) = promptedVlans (uniqueVlans clients)) := by
  constructor
  · intro v
    simp only [uniqueVlans, wiredClients, List.mem_toFinset, List.mem_filterMap,
      List.mem_filter]
    constructor
    · rintro ⟨c, ⟨hc, hw⟩, hv⟩
      exact ⟨c, hc, hw, hv⟩
    · rintro ⟨c, hc, hw, hv⟩
      exact ⟨c, ⟨hc, hw⟩, hv⟩
  · intro c hv
    have h : uniqueVlans (c :: clients) = uniqueVlans clients := by
      simp only [uniqueVlans, wiredClients, List.filter_cons]
      by_cases hw : isWired c = true
      · simp [hw, hv]
      · simp [hw]
    exact ⟨h, by rw [h]⟩

theorem claim_c10_vlan_set_witness :
    uniqueVlans [⟨"A", none, some "1"⟩, ⟨"B", some 7, some "1"⟩]
      = uniqueVlans [⟨"B", some 7, some "1"⟩]
    ∧ promptedVlans (uniqueVlans [⟨"A", none, some "1"⟩, ⟨"B", some 7, some "1"⟩])
      = promptedVlans (uniqueVlans [⟨"B", some 7, some "1"⟩]) :=
  (claim_c10_vlan_set [⟨"B", some 7, some "1"⟩]).2 ⟨"A", none, some "1"⟩ rfl

end MerakiMigration
